import Mathlib

/-!
Verification of the escalation-helper retrieval and clarification pipeline
(`app.py`).  Strings are modelled as lists of characters; Python string
containment (`kw in s`) becomes `subStr`, `str.lower()` becomes `lowerStr`.
Distances and scores are modelled as exact rationals.
-/

namespace EscalationHelper

/-- Python strings, modelled as character lists. -/
abbrev Str := List Char

/-- Coerce a Lean string literal to the string type of the model. -/
def str (s : String) : Str := s.data

/-- Python `s.lower()` (all source strings are ASCII). -/
def lowerStr (s : Str) : Str := s.map Char.toLower

/-- Helper of `subStr`: does `h` start with `n`? -/
def leadsWith : Str → Str → Bool
  | [], _ => true
  | _ :: _, [] => false
  | a :: as, b :: bs => a == b && leadsWith as bs

/-- Python substring test `n in h`. -/
def subStr (n : Str) : Str → Bool
  | [] => leadsWith n []
  | c :: t => leadsWith n (c :: t) || subStr n t

/-- First-match association-list lookup, modelling Python dict access
(the source dicts have no duplicate keys). -/
def lookupQ {β : Type} (k : Str) : List (Str × β) → Option β
  | [] => Option.none
  | (k2, v) :: t => if k = k2 then some v else lookupQ k t

/-- Distance strictly above this triggers a follow-up (source line 58). -/
def FOLLOWUP_THRESHOLD : ℚ := 0.30

/-- Maximum follow-up questions before showing results (source line 59). -/
def MAX_FOLLOWUPS : ℕ := 4

/-- Source `CATEGORY_KEYWORDS` dict, in definition order. -/
def CATEGORY_KEYWORDS : List (Str × List Str) :=
  [ (str "printer",
      [str "print", str "printer", str "receipt", str "kitchen print", str "ticket",
       str "label", str "paper"]),
    (str "payment",
      [str "payment", str "card", str "credit", str "debit", str "charge", str "batch",
       str "tip", str "refund", str "terminal"]),
    (str "employee",
      [str "employee", str "clock", str "pin", str "schedule", str "staff", str "server",
       str "cashier", str "manager", str "driver"]),
    (str "order",
      [str "order", str "void", str "comp", str "total", str "tax", str "check",
       str "ticket", str "close", str "reopen"]),
    (str "menu",
      [str "menu", str "item", str "price", str "modifier", str "topping", str "size",
       str "coupon", str "product", str "category"]),
    (str "cash",
      [str "cash", str "drawer", str "drop", str "safe", str "over", str "short",
       str "reconcile", str "till", str "deposit"]) ]

/-- One entry of the source `FOLLOWUP_QUESTIONS` dict. -/
structure FollowupData where
  question : Str
  options : List Str
  hint : Str
  query_enrichment : List (Str × Str)
deriving DecidableEq

/-- The `"printer"` entry of `FOLLOWUP_QUESTIONS`. -/
def printerFollowup : FollowupData :=
  { question := str "What\x27s happening with the printer?"
    options :=
      [str "Not printing at all", str "Printing to wrong printer/station",
       str "Double printing", str "Partial or garbled output", str "Slow or delayed"]
    hint := str "Including the printer name (like \x27Printer1\x27 or \x27kitchen printer\x27) helps narrow it down."
    query_enrichment :=
      [ (str "Not printing at all", str "printer not printing no output offline"),
        (str "Printing to wrong printer/station", str "printer routing wrong station destination"),
        (str "Double printing", str "printer duplicate double print twice"),
        (str "Partial or garbled output", str "printer partial garbled cut off corrupt"),
        (str "Slow or delayed", str "printer slow delay queue backed up") ] }

/-- The `"payment"` entry of `FOLLOWUP_QUESTIONS`. -/
def paymentFollowup : FollowupData :=
  { question := str "What\x27s the payment issue?"
    options :=
      [str "Card declined but customer charged", str "Card charged twice",
       str "Payment not recording on order", str "Batch won\x27t settle",
       str "Wrong amount charged"]
    hint := str "If you have the last 4 digits of the card or an order number, include those."
    query_enrichment :=
      [ (str "Card declined but customer charged", str "credit card declined charged anyway ghost"),
        (str "Card charged twice", str "double charge duplicate payment transaction"),
        (str "Payment not recording on order", str "payment missing order unpaid not applied"),
        (str "Batch won\x27t settle", str "credit card batch settle close end day"),
        (str "Wrong amount charged", str "payment amount wrong incorrect total tip") ] }

/-- The `"employee"` entry of `FOLLOWUP_QUESTIONS`. -/
def employeeFollowup : FollowupData :=
  { question := str "What\x27s happening with the employee?"
    options :=
      [str "Can\x27t clock in (says already clocked in)", str "PIN not working",
       str "Missing from POS/schedule", str "Hours showing wrong",
       str "Can\x27t perform an action (void, comp, etc.)"]
    hint := str "Knowing the employee\x27s role (cashier, manager, driver) helps since permissions vary."
    query_enrichment :=
      [ (str "Can\x27t clock in (says already clocked in)", str "employee clock in already stuck timeclock"),
        (str "PIN not working", str "employee PIN login password access denied"),
        (str "Missing from POS/schedule", str "employee not showing missing POS schedule"),
        (str "Hours showing wrong", str "time clock hours incorrect wrong punch"),
        (str "Can\x27t perform an action (void, comp, etc.)", str "employee permission denied can\x27t void comp security") ] }

/-- The `"order"` entry of `FOLLOWUP_QUESTIONS`. -/
def orderFollowup : FollowupData :=
  { question := str "What\x27s wrong with the order?"
    options :=
      [str "Order won\x27t close/complete", str "Can\x27t void or comp items",
       str "Wrong total or tax", str "Missing items", str "Order stuck or disappeared"]
    hint := str "Having the order number or business date helps find the exact records."
    query_enrichment :=
      [ (str "Order won\x27t close/complete", str "order stuck won\x27t close complete finalize"),
        (str "Can\x27t void or comp items", str "void comp order item permission manager"),
        (str "Wrong total or tax", str "order total tax wrong incorrect calculation"),
        (str "Missing items", str "order items missing disappeared deleted"),
        (str "Order stuck or disappeared", str "order missing stuck lost can\x27t find search") ] }

/-- The `"menu"` entry of `FOLLOWUP_QUESTIONS`. -/
def menuFollowup : FollowupData :=
  { question := str "What\x27s the menu issue?"
    options :=
      [str "Item not showing on POS", str "Wrong price displaying",
       str "Modifier options missing", str "Item in wrong category", str "New item not syncing"]
    hint := str "Knowing the exact item name helps find its configuration."
    query_enrichment :=
      [ (str "Item not showing on POS", str "menu item not showing missing button hidden"),
        (str "Wrong price displaying", str "menu price wrong incorrect amount"),
        (str "Modifier options missing", str "modifier topping option missing unavailable"),
        (str "Item in wrong category", str "menu item group category wrong location"),
        (str "New item not syncing", str "menu sync new item not appearing update") ] }

/-- The `"cash"` entry of `FOLLOWUP_QUESTIONS`. -/
def cashFollowup : FollowupData :=
  { question := str "What\x27s the cash drawer issue?"
    options :=
      [str "Drawer over or short", str "Can\x27t reconcile/close drawer",
       str "Wrong employee assigned", str "Drop not recorded",
       str "Multiple employees on same drawer"]
    hint := str "The drawer name (like \x27Drawer 1\x27) and business date help find records."
    query_enrichment :=
      [ (str "Drawer over or short", str "cash drawer over short variance count"),
        (str "Can\x27t reconcile/close drawer", str "cash drawer close reconcile stuck end day"),
        (str "Wrong employee assigned", str "cash drawer employee assignment wrong"),
        (str "Drop not recorded", str "cash drop safe missing not recorded"),
        (str "Multiple employees on same drawer", str "cash drawer shared multiple employees assignment") ] }

/-- The `"default"` entry of `FOLLOWUP_QUESTIONS`. -/
def defaultFollowup : FollowupData :=
  { question := str "What category best describes your issue?"
    options :=
      [str "Orders & checkout", str "Payments & credit cards", str "Printing & receipts",
       str "Employees & time clock", str "Menu & items", str "Cash drawers",
       str "Delivery", str "Something else"]
    hint := str "Pick the closest match and I\x27ll ask a more specific question."
    query_enrichment :=
      [ (str "Orders & checkout", str "order"),
        (str "Payments & credit cards", str "payment credit card"),
        (str "Printing & receipts", str "printer receipt"),
        (str "Employees & time clock", str "employee time clock"),
        (str "Menu & items", str "menu item"),
        (str "Cash drawers", str "cash drawer"),
        (str "Delivery", str "delivery driver dispatch"),
        (str "Something else", str "") ] }

/-- Source `FOLLOWUP_QUESTIONS` dict, in definition order. -/
def FOLLOWUP_QUESTIONS : List (Str × FollowupData) :=
  [ (str "printer", printerFollowup), (str "payment", paymentFollowup),
    (str "employee", employeeFollowup), (str "order", orderFollowup),
    (str "menu", menuFollowup), (str "cash", cashFollowup),
    (str "default", defaultFollowup) ]

/-- Python `round(x)` on exact values: nearest integer, ties to even. -/
def roundHalfEven (q : ℚ) : ℤ :=
  let f : ℤ := ⌊q⌋
  if q - f < 1 / 2 then f
  else if 1 / 2 < q - f then f + 1
  else if f % 2 = 0 then f else f + 1

/-- Python `round(x, 1)`: round to one decimal place, ties to even. -/
def pyRound1 (q : ℚ) : ℚ := (roundHalfEven (q * 10) : ℚ) / 10

/-- A search hit as built by `search_knowledge_base` (a Python dict in the
source); `cross_encoder_score` is attached by the reranking stage. -/
structure Candidate where
  content : Str
  metadata : List (Str × Str)
  distance : Option ℚ
  similarity_pct : Option ℚ
  cross_encoder_score : Option ℚ
deriving DecidableEq

/-- The source expression `round((1 - distance) * 100, 1) if distance else None`
(line 539).  Python truthiness sends both `None` and `0.0` to the `None`
branch, so a distance of exactly `0` yields no percentage. -/
def pySimilarity (d : Option ℚ) : Option ℚ :=
  match d with
  | some v => if v = 0 then Option.none else some (pyRound1 ((1 - v) * 100))
  | Option.none => Option.none

/-- `results["distances"][0][i] if results["distances"] else None`. -/
def getDist (dists : Option (List ℚ)) (i : ℕ) : Option ℚ :=
  match dists with
  | Option.none => Option.none
  | some l => l[i]?

/-- `results["metadatas"][0][i] if results["metadatas"] else an empty dict`. -/
def getMeta (metas : Option (List (List (Str × Str)))) (i : ℕ) : List (Str × Str) :=
  match metas with
  | Option.none => []
  | some l => (l[i]?).getD []

/-- The relaxed pre-rerank bound `min(distance_threshold + 0.10, 0.60)`. -/
def preRerankThreshold (threshold : ℚ) : ℚ := min (threshold + 0.10) 0.60

/-- Candidate-building loop of `search_knowledge_base` (lines 527-540): walk
the retrieved documents in order, skip (`continue`) any whose present
distance strictly exceeds the relaxed bound, and build a candidate dict for
the rest. -/
def mkCandidates (docs : List Str) (metas : Option (List (List (Str × Str))))
    (dists : Option (List ℚ)) (pre : ℚ) : List Candidate :=
  docs.enum.filterMap (fun p =>
    let distance := getDist dists p.1
    if (match distance with | some d => decide (pre < d) | Option.none => false) then
      Option.none
    else
      some { content := p.2, metadata := getMeta metas p.1, distance := distance,
             similarity_pct := pySimilarity distance, cross_encoder_score := Option.none })

/-- `x.get("cross_encoder_score", 0)`, the sort key of the rerank stage. -/
def ceKey (c : Candidate) : ℚ := c.cross_encoder_score.getD 0

/-- Ordering realised by the stable Python `sorted(..., key=..., reverse=True)`
on index-annotated candidates: strictly larger score first, ties broken by
original position. -/
def ceRel (a b : ℕ × Candidate) : Prop :=
  ceKey b.2 < ceKey a.2 ∨ (ceKey a.2 = ceKey b.2 ∧ a.1 ≤ b.1)

instance : DecidableRel ceRel := fun a b =>
  inferInstanceAs (Decidable (_ ∨ _))

instance : IsTotal (ℕ × Candidate) ceRel where
  total a b := by
    rcases lt_trichotomy (ceKey a.2) (ceKey b.2) with h | h | h
    · exact Or.inr (Or.inl h)
    · rcases Nat.le_total a.1 b.1 with h2 | h2
      · exact Or.inl (Or.inr ⟨h, h2⟩)
      · exact Or.inr (Or.inr ⟨h.symm, h2⟩)
    · exact Or.inl (Or.inl h)

instance : IsTrans (ℕ × Candidate) ceRel where
  trans a b c hab hbc := by
    rcases hab with h1 | ⟨h1, h1i⟩
    · rcases hbc with h2 | ⟨h2, _⟩
      · exact Or.inl (h2.trans h1)
      · exact Or.inl (h2 ▸ h1)
    · rcases hbc with h2 | ⟨h2, h2i⟩
      · exact Or.inl (by rw [h1]; exact h2)
      · exact Or.inr ⟨h1.trans h2, h1i.trans h2i⟩

/-- `sorted(candidates, key=lambda x: x.get("cross_encoder_score", 0),
reverse=True)` (lines 560-564).  the Python sort is stable, so its result is
the unique permutation sorted by `ceRel` on position-annotated elements. -/
def sortByCE (l : List Candidate) : List Candidate :=
  (l.enum.insertionSort ceRel).map Prod.snd

/-- The in-place loop `candidates[i]["cross_encoder_score"] = float(scores[i])`
(lines 556-557); positions beyond `scores.length` stay unannotated (in the
source an `IndexError` would stop the loop there and be caught). -/
def annotateScores (cands : List Candidate) (scores : List ℚ) : List Candidate :=
  cands.enum.map (fun p =>
    match scores[p.1]? with
    | some v => { p.2 with cross_encoder_score := some v }
    | Option.none => p.2)

/-- The external cross-encoder `predict` call: may fail (any exception). -/
def Encoder : Type := List (Str × Str) → Except Unit (List ℚ)

/-- Stage 2 of `search_knowledge_base` (lines 545-567): if a cross-encoder is
available and there are at least two candidates, score all (query, content)
pairs, annotate, and stable-sort descending by score; any failure inside the
`try` block (including a short score vector) is caught and the pre-rerank
order passes through. -/
def rerankStage (query : Str) (encoder : Option Encoder) (candidates : List Candidate) :
    List Candidate :=
  match encoder with
  | Option.none => candidates
  | some enc =>
    if 1 < candidates.length then
      match enc (candidates.map (fun c => (query, c.content))) with
      | Except.error _ => candidates
      | Except.ok scores =>
        if candidates.length ≤ scores.length then sortByCE (annotateScores candidates scores)
        else annotateScores candidates scores
    else candidates

/-- The post-filter predicate: keep a candidate when its distance is at most
the threshold or absent (lines 572-575). -/
def postPred (threshold : ℚ) (c : Candidate) : Bool :=
  match c.distance with
  | some d => decide (d ≤ threshold)
  | Option.none => true

/-- The final `for c in candidates[:return_k]` loop body (lines 570-575). -/
def postLoop (threshold : ℚ) : List Candidate → List Candidate
  | [] => []
  | c :: t =>
    match c.distance with
    | some d => if d ≤ threshold then c :: postLoop threshold t else postLoop threshold t
    | Option.none => c :: postLoop threshold t

/-- Final distance threshold and result limit (lines 569-577). -/
def postFilterStage (threshold : ℚ) (return_k : ℕ) (candidates : List Candidate) :
    List Candidate :=
  postLoop threshold (candidates.take return_k)

/-- Configuration consumed by the search (defaults from `config.py`). -/
structure SearchConfig where
  return_k : ℕ := 3
  distance_threshold : ℚ := 0.40
deriving DecidableEq

/-- `search_knowledge_base` (lines 493-577).  The vector index is a black box,
so its reply (`docs`, `metas`, `dists`) and the optional cross-encoder are
inputs here. -/
def search_knowledge_base (query : Str) (docs : List Str)
    (metas : Option (List (List (Str × Str)))) (dists : Option (List ℚ))
    (encoder : Option Encoder) (use_reranking : Bool) (cfg : SearchConfig) :
    List Candidate :=
  if docs = [] then []
  else
    let candidates := mkCandidates docs metas dists (preRerankThreshold cfg.distance_threshold)
    if candidates = [] then []
    else
      let cross_encoder := if use_reranking then encoder else Option.none
      let reranked := rerankStage query cross_encoder candidates
      postFilterStage cfg.distance_threshold cfg.return_k reranked

/-- `get_relevance_class` (lines 628-652).  The source formats the label as
for example `f"Excellent ({similarity_pct}%)"`; here the word and the
percentage are returned side by side. -/
def get_relevance_class (distance : Option ℚ) : Str × Str × Option ℚ :=
  match distance with
  | Option.none => (str "medium", str "Medium", Option.none)
  | some d =>
    let similarity_pct := pyRound1 ((1 - d) * 100)
    if d < 0.20 then (str "excellent", str "Excellent", some similarity_pct)
    else if d < 0.35 then (str "good", str "Good", some similarity_pct)
    else if d < 0.50 then (str "fair", str "Fair", some similarity_pct)
    else (str "weak", str "Weak", some similarity_pct)

/-- Keyword score of one category:
`sum(1 for keyword in keywords if keyword in query_lower)`. -/
def categoryScore (keywords : List Str) (query_lower : Str) : ℕ :=
  keywords.countP (fun kw => subStr kw query_lower)

/-- Python `max(iterable, key=...)`: first element attaining the maximum.
The accumulator is replaced only on a strictly larger score. -/
def maxFirst (best : Str × ℕ) : List (Str × ℕ) → Str × ℕ
  | [] => best
  | p :: t => maxFirst (if best.2 < p.2 then p else best) t

/-- The `category_scores` dict of `detect_category`: categories with a
positive score paired with their score, in table order. -/
def categoryScoresOf (query : Str) : List (Str × ℕ) :=
  CATEGORY_KEYWORDS.filterMap (fun p =>
    if 0 < categoryScore p.2 (lowerStr query) then
      some (p.1, categoryScore p.2 (lowerStr query))
    else Option.none)

/-- `detect_category` (lines 658-679): lower-case the query, score each
category by keyword-substring counts, keep the positive ones in table order,
and return the first key attaining the maximal score, or `"default"`. -/
def detect_category (query : Str) : Str :=
  match categoryScoresOf query with
  | [] => str "default"
  | p :: t => (maxFirst p t).1

/-- `should_trigger_followup` (lines 682-699); `ms` is the `matches` list. -/
def should_trigger_followup (ms : List Candidate) : Bool :=
  match ms with
  | [] => false
  | m :: _ =>
    match m.distance with
    | Option.none => false
    | some top_distance => decide (FOLLOWUP_THRESHOLD < top_distance)

/-- `" ".join(enrichments)`. -/
def joinSp : List Str → Str
  | [] => []
  | [x] => x
  | x :: y :: t => x ++ ' ' :: joinSp (y :: t)

/-- `build_enriched_query` (lines 702-717). -/
def build_enriched_query (original : Str) (enrichments : List Str) : Str :=
  if enrichments = [] then original
  else original ++ ' ' :: joinSp enrichments

/-- `get_followup_data` (lines 730-742). -/
def get_followup_data (category : Str) : FollowupData :=
  (lookupQ category FOLLOWUP_QUESTIONS).getD defaultFollowup

/-- The follow-up related Streamlit session state (lines 376-387). -/
structure SessionState where
  followup_active : Bool
  original_query : Str
  followup_count : ℕ
  enriched_context : List Str
  pending_followup : Option Str
  cached_matches : List Candidate
deriving DecidableEq

/-- `reset_followup_state` (lines 720-727), which is also the initial
session state (lines 376-387). -/
def reset_followup_state : SessionState :=
  { followup_active := false, original_query := [], followup_count := 0,
    enriched_context := [], pending_followup := Option.none, cached_matches := [] }

/-- What one Streamlit rerun shows the user: nothing, a warning, a follow-up
question for a category, or generated results for a query over matches. -/
inductive Emission where
  | silent
  | noResults
  | asked (category : Str)
  | results (query : Str) (ms : List Candidate)
deriving DecidableEq

/-- Body of the selection handler once the pending category is known
(lines 876-931).  `f` is the deterministic search pipeline
(`search_knowledge_base` with the live collection) used for the re-search. -/
def selectWithCategory (f : Str → List Candidate) (s : SessionState) (category : Str)
    (selected : Str) : SessionState × Emission :=
  let ms := s.cached_matches
  let followup_data := get_followup_data category
  let enrichment := (lookupQ selected followup_data.query_enrichment).getD []
  if category = str "default" ∧ (lookupQ enrichment FOLLOWUP_QUESTIONS).isSome ∧
      enrichment ≠ str "default" then
    ({ s with pending_followup := some enrichment,
              followup_count := s.followup_count + 1 },
     Emission.asked enrichment)
  else if enrichment ≠ [] then
    let ctx := s.enriched_context ++ [enrichment]
    let enriched_query := build_enriched_query s.original_query ctx
    let new_matches := f enriched_query
    let count := s.followup_count + 1
    if should_trigger_followup new_matches = false ∨ MAX_FOLLOWUPS ≤ count then
      (reset_followup_state,
       if new_matches = [] then Emission.noResults
       else Emission.results enriched_query new_matches)
    else
      ({ s with enriched_context := ctx, followup_count := count,
                cached_matches := new_matches,
                pending_followup := some (detect_category enriched_query) },
       Emission.asked (detect_category enriched_query))
  else
    -- Source lines 926-931: `reset_followup_state()` runs BEFORE
    -- `st.session_state.original_query` is read, so the query shown to
    -- answer generation is the reset (empty) one.
    let s2 := reset_followup_state
    (s2, if ms = [] then Emission.silent else Emission.results s2.original_query ms)

/-- Handling of a non-skip selection: only acts when a follow-up is pending
(lines 869-931). -/
def processSelection (f : Str → List Candidate) (s : SessionState) (selected : Str) :
    SessionState × Emission :=
  match s.pending_followup with
  | Option.none => (s, Emission.silent)
  | some category => selectWithCategory f s category selected

/-- Handling of an explicit skip while a follow-up is pending
(lines 933-953): the original query is saved before the reset. -/
def processSkip (s : SessionState) : SessionState × Emission :=
  let ms := s.cached_matches
  let original_query := s.original_query
  let s2 := reset_followup_state
  (s2, if ms = [] then Emission.noResults else Emission.results original_query ms)

/-- Handling of a fresh query typed while no follow-up is pending
(lines 955-994). -/
def handleNewQuery (f : Str → List Candidate) (s : SessionState) (prompt : Str) :
    SessionState × Emission :=
  let ms := f prompt
  if ms = [] then (s, Emission.noResults)
  else if should_trigger_followup ms = true ∧ s.followup_count < MAX_FOLLOWUPS then
    ({ s with followup_active := true, original_query := prompt,
              cached_matches := ms, followup_count := 1,
              pending_followup := some (detect_category prompt) },
     Emission.asked (detect_category prompt))
  else (s, Emission.results prompt ms)

/-- The session states the app can actually be in: from the initial state,
via fresh queries (only rendered when no follow-up is pending), non-skip
selections and skips (only rendered when one is pending), and the sidebar
resets (clear chat / logout). -/
inductive Reachable (f : Str → List Candidate) : SessionState → Prop where
  | init : Reachable f reset_followup_state
  | newQuery (s : SessionState) (prompt : Str) : Reachable f s →
      s.pending_followup = Option.none → Reachable f (handleNewQuery f s prompt).1
  | select (s : SessionState) (sel : Str) : Reachable f s →
      s.pending_followup ≠ Option.none → Reachable f (processSelection f s sel).1
  | skip (s : SessionState) : Reachable f s →
      s.pending_followup ≠ Option.none → Reachable f (processSkip s).1
  | reset (s : SessionState) : Reachable f s → Reachable f reset_followup_state

/-- Run a sequence of non-skip selections; once no follow-up is pending the
remaining selections have no radio widget to land on and change nothing. -/
def runSelections (f : Str → List Candidate) : SessionState → List Str → SessionState
  | s, [] => s
  | s, sel :: rest =>
    if s.pending_followup = Option.none then runSelections f s rest
    else runSelections f (processSelection f s sel).1 rest

/-- Does some category keyword occur in the lowered text? -/
def hasKeywordB (t : Str) : Bool :=
  CATEGORY_KEYWORDS.any (fun ck => ck.2.any (fun kw => subStr kw (lowerStr t)))

/-- Invariant of the reachable session states: an active follow-up has used
between 1 and 3 turns, the category-choice question (`"default"`) can only be
pending on the very first turn, and every accumulated enrichment phrase
contains a category keyword. -/
def Inv (s : SessionState) : Prop :=
  (s.pending_followup ≠ Option.none →
    1 ≤ s.followup_count ∧ s.followup_count ≤ 3) ∧
  (s.pending_followup = some (str "default") → s.followup_count = 1) ∧
  (∀ t ∈ s.enriched_context, hasKeywordB t = true)

/-- Fixture: a low-confidence hit (distance 0.45, i.e. 55 percent). -/
def sampleCandidate : Candidate :=
  { content := str "SELECT TOP 10 * FROM tbOrder", metadata := [],
    distance := some 0.45, similarity_pct := some 55,
    cross_encoder_score := Option.none }

/-- Fixture: a hit whose distance is absent. -/
def distancelessCandidate : Candidate :=
  { content := str "SELECT 1", metadata := [], distance := Option.none,
    similarity_pct := Option.none, cross_encoder_score := Option.none }

/-- Fixture: a session waiting on the category-choice question with one
cached low-confidence match, as produced by a trigger on a keyword-less
query. -/
def bugSession : SessionState :=
  { followup_active := true, original_query := str "cashier cannot void",
    followup_count := 1, enriched_context := [],
    pending_followup := some (str "default"),
    cached_matches := [sampleCandidate] }

/-- Fixture: a cross-encoder call that always raises. -/
def failEncoder : Encoder := fun _ => Except.error ()

/-- Fixture: a cross-encoder call returning fixed scores. -/
def okEncoder : Encoder := fun _ => Except.ok [1, 2]

/-- Fixture: a search pipeline that always finds `sampleCandidate`. -/
def demoSearch : Str → List Candidate := fun _ => [sampleCandidate]

/-- Fixture: the session right after a trigger on the query `"help"`. -/
def demoTriggered : SessionState :=
  (handleNewQuery demoSearch reset_followup_state (str "help")).1

/-!  Theorems.  First the generic list/string lemmas, then facts about the
concrete tables, then the claim theorems. -/

theorem leadsWith_iff (n h : Str) : leadsWith n h = true ↔ ∃ s, h = n ++ s := by
  induction n generalizing h with
  | nil => simp [leadsWith]
  | cons a as ih =>
    cases h with
    | nil => simp [leadsWith]
    | cons b bs =>
      simp only [leadsWith, Bool.and_eq_true, beq_iff_eq, ih]
      constructor
      · rintro ⟨rfl, s, rfl⟩
        exact ⟨s, rfl⟩
      · rintro ⟨s, hs⟩
        injection hs with h1 h2
        exact ⟨h1.symm, s, h2⟩

theorem subStr_iff (n h : Str) : subStr n h = true ↔ ∃ p s, h = p ++ n ++ s := by
  induction h with
  | nil =>
    simp only [subStr, leadsWith_iff]
    constructor
    · rintro ⟨s, hs⟩
      exact ⟨[], s, hs⟩
    · rintro ⟨p, s, hs⟩
      cases p with
      | nil => exact ⟨s, hs⟩
      | cons x xs => simp at hs
  | cons c t ih =>
    simp only [subStr, Bool.or_eq_true, leadsWith_iff, ih]
    constructor
    · rintro (⟨s, hs⟩ | ⟨p, s, hs⟩)
      · exact ⟨[], s, by simpa using hs⟩
      · exact ⟨c :: p, s, by simp [hs]⟩
    · rintro ⟨p, s, hs⟩
      cases p with
      | nil => exact Or.inl ⟨s, by simpa using hs⟩
      | cons x xs =>
        injection hs with h1 h2
        exact Or.inr ⟨xs, s, h2⟩

theorem subStr_of_append (n p s m : Str) (h : subStr n m = true) :
    subStr n (p ++ m ++ s) = true := by
  rcases (subStr_iff n m).1 h with ⟨a, b, rfl⟩
  exact (subStr_iff n _).2 ⟨p ++ a, b ++ s, by simp⟩

theorem lowerStr_append (a b : Str) : lowerStr (a ++ b) = lowerStr a ++ lowerStr b :=
  List.map_append _ a b

theorem lookupQ_mem {β : Type} {k : Str} {l : List (Str × β)} {v : β}
    (h : lookupQ k l = some v) : (k, v) ∈ l := by
  induction l with
  | nil => simp [lookupQ] at h
  | cons p t ih =>
    obtain ⟨k2, w⟩ := p
    by_cases hk : k = k2
    · simp only [lookupQ, if_pos hk] at h
      injection h with h
      simp [hk, h]
    · simp only [lookupQ, if_neg hk] at h
      exact List.mem_cons_of_mem _ (ih h)

theorem hasKeywordB_of_append {t : Str} (p s : Str) (h : hasKeywordB t = true) :
    hasKeywordB (p ++ t ++ s) = true := by
  simp only [hasKeywordB, List.any_eq_true] at h ⊢
  rcases h with ⟨ck, hck, kw, hkw, hsub⟩
  refine ⟨ck, hck, kw, hkw, ?_⟩
  rw [lowerStr_append, lowerStr_append]
  exact subStr_of_append _ _ _ _ hsub

theorem mem_joinSp {t : Str} : ∀ {ctx : List Str}, t ∈ ctx →
    ∃ p s, joinSp ctx = p ++ t ++ s := by
  intro ctx
  induction ctx with
  | nil => simp
  | cons x rest ih =>
    intro ht
    cases rest with
    | nil =>
      rcases List.mem_singleton.1 ht with rfl
      exact ⟨[], [], by simp [joinSp]⟩
    | cons y t2 =>
      rcases List.mem_cons.1 ht with rfl | hmem
      · exact ⟨[], ' ' :: joinSp (y :: t2), by simp [joinSp]⟩
      · rcases ih hmem with ⟨p, s, hp⟩
        exact ⟨x ++ ' ' :: p, s, by simp [joinSp, hp]⟩

theorem hasKeywordB_enriched {t : Str} {ctx : List Str} (orig : Str)
    (hmem : t ∈ ctx) (hk : hasKeywordB t = true) :
    hasKeywordB (build_enriched_query orig ctx) = true := by
  have hne : ctx ≠ [] := List.ne_nil_of_mem hmem
  rcases mem_joinSp hmem with ⟨p, s, hp⟩
  rw [build_enriched_query, if_neg hne, hp]
  have : orig ++ ' ' :: (p ++ t ++ s) = (orig ++ ' ' :: p) ++ t ++ s := by simp
  rw [this]
  exact hasKeywordB_of_append _ _ hk

theorem maxFirst_mem (best : Str × ℕ) (l : List (Str × ℕ)) :
    maxFirst best l ∈ best :: l := by
  induction l generalizing best with
  | nil => simp [maxFirst]
  | cons p t ih =>
    rw [maxFirst]
    rcases List.mem_cons.1 (ih (if best.2 < p.2 then p else best)) with h | h
    · rw [h]
      split
      · simp
      · simp
    · simp [List.mem_cons_of_mem _ (List.mem_cons_of_mem _ h)]

theorem maxFirst_ge (best : Str × ℕ) (l : List (Str × ℕ)) :
    ∀ x ∈ best :: l, x.2 ≤ (maxFirst best l).2 := by
  induction l generalizing best with
  | nil => simp [maxFirst]
  | cons p t ih =>
    intro x hx
    rw [maxFirst]
    have hacc : ∀ y ∈ (if best.2 < p.2 then p else best) :: t,
        y.2 ≤ (maxFirst (if best.2 < p.2 then p else best) t).2 := ih _
    rcases List.mem_cons.1 hx with rfl | hx2
    · refine le_trans ?_ (hacc _ (List.mem_cons_self _ _))
      split
      · exact le_of_lt (by assumption)
      · exact le_refl _
    rcases List.mem_cons.1 hx2 with rfl | hx3
    · refine le_trans ?_ (hacc _ (List.mem_cons_self _ _))
      split
      · exact le_refl _
      · exact Nat.le_of_not_lt (by assumption)
    · exact hacc _ (List.mem_cons_of_mem _ hx3)

theorem maxFirst_first (best : Str × ℕ) (l : List (Str × ℕ)) :
    ∃ pre post, best :: l = pre ++ (maxFirst best l) :: post ∧
      ∀ x ∈ pre, x.2 < (maxFirst best l).2 := by
  induction l generalizing best with
  | nil => exact ⟨[], [], by simp [maxFirst]⟩
  | cons p t ih =>
    rw [maxFirst]
    by_cases hbp : best.2 < p.2
    · rw [if_pos hbp]
      rcases ih p with ⟨pre, post, hsplit, hlt⟩
      refine ⟨best :: pre, post, by simp [hsplit], ?_⟩
      intro x hx
      rcases List.mem_cons.1 hx with rfl | hx2
      · exact lt_of_lt_of_le hbp (maxFirst_ge p t _ (List.mem_cons_self _ _))
      · exact hlt _ hx2
    · rw [if_neg hbp]
      rcases ih best with ⟨pre, post, hsplit, hlt⟩
      cases pre with
      | nil =>
        simp only [List.nil_append] at hsplit
        have hbest : maxFirst best t = best := by
          injection hsplit with h1 _
          exact h1.symm
        exact ⟨[], p :: t, by rw [List.nil_append, hbest], by simp⟩
      | cons z pre2 =>
        injection hsplit with h1 h2
        subst h1
        refine ⟨best :: p :: pre2, post,
          congrArg (fun l => best :: p :: l) h2, ?_⟩
        intro x hx
        rcases List.mem_cons.1 hx with rfl | hx2
        · exact hlt _ (List.mem_cons_self _ _)
        rcases List.mem_cons.1 hx2 with rfl | hx3
        · exact lt_of_le_of_lt (Nat.le_of_not_lt hbp) (hlt _ (List.mem_cons_self _ _))
        · exact hlt _ (List.mem_cons_of_mem _ hx3)

theorem filterMap_split {α β : Type} (f : α → Option β) :
    ∀ (l : List α) (spre : List β) (b : β) (spost : List β),
      l.filterMap f = spre ++ b :: spost →
      ∃ pre a post, l = pre ++ a :: post ∧ f a = some b ∧
        pre.filterMap f = spre ∧ post.filterMap f = spost := by
  intro l
  induction l with
  | nil => intro spre b spost h; simp at h
  | cons x t ih =>
    intro spre b spost h
    cases hfx : f x with
    | none =>
      rw [List.filterMap_cons_none hfx] at h
      rcases ih spre b spost h with ⟨pre, a, post, hsplit, hfa, hpre, hpost⟩
      exact ⟨x :: pre, a, post, by simp [hsplit],
        hfa, by rw [List.filterMap_cons_none hfx]; exact hpre, hpost⟩
    | some y =>
      rw [List.filterMap_cons_some hfx] at h
      cases spre with
      | nil =>
        simp only [List.nil_append] at h
        injection h with h1 h2
        exact ⟨[], x, t, rfl, h1 ▸ hfx, rfl, h2⟩
      | cons y2 spre2 =>
        simp only [List.cons_append] at h
        injection h with h1 h2
        subst h1
        rcases ih spre2 b spost h2 with ⟨pre, a, post, hsplit, hfa, hpre, hpost⟩
        exact ⟨x :: pre, a, post, by simp [hsplit], hfa,
          by rw [List.filterMap_cons_some hfx, hpre], hpost⟩

theorem categoryScore_pos {kws : List Str} {ql : Str}
    (h : ∃ kw ∈ kws, subStr kw ql = true) : 0 < categoryScore kws ql := by
  rw [categoryScore]
  exact List.countP_pos_iff.2 h

theorem mem_categoryScoresOf {q : Str} {x : Str × ℕ} (h : x ∈ categoryScoresOf q) :
    ∃ a ∈ CATEGORY_KEYWORDS, x.1 = a.1 ∧ x.2 = categoryScore a.2 (lowerStr q) ∧ 0 < x.2 := by
  rcases List.mem_filterMap.1 h with ⟨a, ha, hfa⟩
  by_cases hc : 0 < categoryScore a.2 (lowerStr q)
  · rw [if_pos hc] at hfa
    injection hfa with h1
    exact ⟨a, ha, by rw [← h1], by rw [← h1], by rw [← h1]; exact hc⟩
  · rw [if_neg hc] at hfa
    simp at hfa

theorem not_default_key {a : Str × List Str} (ha : a ∈ CATEGORY_KEYWORDS) :
    a.1 ≠ str "default" := by
  fin_cases ha <;> decide

theorem detect_ne_default {q : Str} (h : hasKeywordB q = true) :
    detect_category q ≠ str "default" := by
  cases hs : categoryScoresOf q with
  | nil =>
    exfalso
    simp only [hasKeywordB, List.any_eq_true] at h
    rcases h with ⟨ck, hck, hkw⟩
    have hpos : 0 < categoryScore ck.2 (lowerStr q) :=
      categoryScore_pos (by simpa using hkw)
    have := (List.filterMap_eq_nil_iff.mp hs) ck hck
    rw [if_pos hpos] at this
    simp at this
  | cons p t =>
    have hdet : detect_category q = (maxFirst p t).1 := by rw [detect_category, hs]
    have hmem := maxFirst_mem p t
    rw [← hs] at hmem
    rcases mem_categoryScoresOf hmem with ⟨a, ha, hkey, _, _⟩
    rw [hdet, hkey]
    exact not_default_key ha

/-- C8: `detect_category` lower-cases the query, scores every category by
the number of its keywords occurring as substrings, returns `"default"`
exactly when every category scores zero, and otherwise returns the
first-defined category attaining the maximal (positive) score.  It is a
plain function of the query, hence deterministic and total. -/
theorem detect_category_keyword_scoring (q : Str) :
    (detect_category q = str "default" ↔
      ∀ p ∈ CATEGORY_KEYWORDS, categoryScore p.2 (lowerStr q) = 0) ∧
    (detect_category q ≠ str "default" →
      ∃ pre kws post, CATEGORY_KEYWORDS = pre ++ (detect_category q, kws) :: post ∧
        0 < categoryScore kws (lowerStr q) ∧
        (∀ p ∈ pre, categoryScore p.2 (lowerStr q) < categoryScore kws (lowerStr q)) ∧
        (∀ p ∈ CATEGORY_KEYWORDS,
          categoryScore p.2 (lowerStr q) ≤ categoryScore kws (lowerStr q))) := by
  cases hs : categoryScoresOf q with
  | nil =>
    have hdet : detect_category q = str "default" := by rw [detect_category, hs]
    constructor
    · rw [hdet]
      simp only [true_iff]
      intro p hp
      have := (List.filterMap_eq_nil_iff.mp hs) p hp
      by_cases hc : 0 < categoryScore p.2 (lowerStr q)
      · rw [if_pos hc] at this; simp at this
      · omega
    · intro hne
      exact absurd hdet hne
  | cons p t =>
    have hdet : detect_category q = (maxFirst p t).1 := by rw [detect_category, hs]
    have hmem := maxFirst_mem p t
    have hmem2 : maxFirst p t ∈ categoryScoresOf q := by rw [hs]; exact hmem
    rcases mem_categoryScoresOf hmem2 with ⟨a, ha, hkey, hval, hpos⟩
    have hne : detect_category q ≠ str "default" := by
      rw [hdet, hkey]; exact not_default_key ha
    constructor
    · constructor
      · intro h; exact absurd h hne
      · intro hall
        exfalso
        rcases mem_categoryScoresOf (by rw [hs]; exact List.mem_cons_self p t) with
          ⟨b, hb, _, hbval, hbpos⟩
        rw [hbval] at hbpos
        rw [hall b hb] at hbpos
        exact Nat.lt_irrefl 0 hbpos
    · intro _
      rcases maxFirst_first p t with ⟨spre, spost, hsplit, hslt⟩
      have hsfull : categoryScoresOf q = spre ++ maxFirst p t :: spost := by
        rw [hs, hsplit]
      rcases filterMap_split _ CATEGORY_KEYWORDS spre (maxFirst p t) spost hsfull with
        ⟨pre, b, post, htab, hfb, hpre, hpost⟩
      have hbpos : 0 < categoryScore b.2 (lowerStr q) := by
        by_cases hc : 0 < categoryScore b.2 (lowerStr q)
        · exact hc
        · rw [if_neg hc] at hfb; simp at hfb
      rw [if_pos hbpos] at hfb
      have hb1 : (maxFirst p t).1 = b.1 := by
        injection hfb with h1; rw [← h1]
      have hb2 : (maxFirst p t).2 = categoryScore b.2 (lowerStr q) := by
        injection hfb with h1; rw [← h1]
      refine ⟨pre, b.2, post, ?_, ?_, ?_, ?_⟩
      · rw [htab, hdet, hb1]
      · exact hbpos
      · intro x hx
        rw [← hb2]
        by_cases hc : 0 < categoryScore x.2 (lowerStr q)
        · have hxin : (x.1, categoryScore x.2 (lowerStr q)) ∈ spre := by
            rw [← hpre]
            exact List.mem_filterMap.2 ⟨x, hx, by rw [if_pos hc]⟩
          exact hslt _ hxin
        · omega
      · intro x hx
        rw [← hb2]
        by_cases hc : 0 < categoryScore x.2 (lowerStr q)
        · have hxin : (x.1, categoryScore x.2 (lowerStr q)) ∈ categoryScoresOf q := by
            rw [categoryScoresOf]
            exact List.mem_filterMap.2 ⟨x, hx, by rw [if_pos hc]⟩
          rw [hs] at hxin
          exact maxFirst_ge p t _ hxin
        · omega

theorem enrichment_values_keyword :
    FOLLOWUP_QUESTIONS.all (fun p => p.2.query_enrichment.all
      (fun qe => qe.2.isEmpty || hasKeywordB qe.2)) = true := by decide

theorem hasKeyword_of_table {k : Str} {fd : FollowupData} {sel v : Str}
    (hk : (k, fd) ∈ FOLLOWUP_QUESTIONS) (hv : (sel, v) ∈ fd.query_enrichment)
    (hne : v ≠ []) : hasKeywordB v = true := by
  have h := enrichment_values_keyword
  rw [List.all_eq_true] at h
  have h2 := h _ hk
  simp only [List.all_eq_true] at h2
  have h3 := h2 _ hv
  simp only [Bool.or_eq_true, List.isEmpty_iff] at h3
  rcases h3 with h3 | h3
  · exact absurd h3 hne
  · exact h3

theorem get_followup_data_mem (category : Str) :
    ∃ k, (k, get_followup_data category) ∈ FOLLOWUP_QUESTIONS := by
  rw [get_followup_data]
  cases h : lookupQ category FOLLOWUP_QUESTIONS with
  | none =>
    simp only [Option.getD_none]
    exact ⟨str "default", by simp [FOLLOWUP_QUESTIONS]⟩
  | some fd =>
    simp only [Option.getD_some]
    exact ⟨category, lookupQ_mem h⟩

theorem selected_enrichment_keyword (category sel : Str)
    (hne : (lookupQ sel (get_followup_data category).query_enrichment).getD [] ≠ []) :
    hasKeywordB ((lookupQ sel (get_followup_data category).query_enrichment).getD [])
      = true := by
  cases hl : lookupQ sel (get_followup_data category).query_enrichment with
  | none => rw [hl] at hne; simp at hne
  | some v =>
    rw [hl] at hne
    simp only [Option.getD_some] at hne ⊢
    rcases get_followup_data_mem category with ⟨k, hk⟩
    exact hasKeyword_of_table hk (lookupQ_mem hl) hne

theorem inv_reset : Inv reset_followup_state := by
  refine ⟨?_, ?_, ?_⟩ <;> simp [reset_followup_state]

theorem inv_selectWithCategory (f : Str → List Candidate) (s : SessionState)
    (category sel : Str) (hp : s.pending_followup = some category) (hInv : Inv s) :
    Inv (selectWithCategory f s category sel).1 := by
  obtain ⟨hB, hC, hD⟩ := hInv
  simp only [selectWithCategory]
  split_ifs with h1 h2 h3 h4 h5
  · -- category redirect
    have hcount : s.followup_count = 1 := hC (by rw [hp, h1.1])
    refine ⟨fun _ => ?_, fun hdef => ?_, hD⟩
    · show 1 ≤ s.followup_count + 1 ∧ s.followup_count + 1 ≤ 3
      omega
    · exfalso
      have heq : (lookupQ sel (get_followup_data category).query_enrichment).getD []
          = str "default" := by simpa using hdef
      exact h1.2.2 heq
  · exact inv_reset
  · exact inv_reset
  · -- enrichment branch, asking again
    have hkw := selected_enrichment_keyword category sel h2
    rcases not_or.1 h3 with ⟨htrig, hcnt⟩
    rw [MAX_FOLLOWUPS] at hcnt
    refine ⟨fun _ => ?_, fun hdef => ?_, fun t ht => ?_⟩
    · show 1 ≤ s.followup_count + 1 ∧ s.followup_count + 1 ≤ 3
      omega
    · exfalso
      have hdet : detect_category (build_enriched_query s.original_query
          (s.enriched_context ++
            [(lookupQ sel (get_followup_data category).query_enrichment).getD []]))
          = str "default" := by simpa using hdef
      exact detect_ne_default (hasKeywordB_enriched s.original_query
        (List.mem_append_right _ (List.mem_singleton_self _)) hkw) hdet
    · rcases List.mem_append.1 ht with ht2 | ht2
      · exact hD t ht2
      · rw [List.mem_singleton.1 ht2]
        exact hkw
  · exact inv_reset
  · exact inv_reset

theorem inv_processSelection (f : Str → List Candidate) (s : SessionState) (sel : Str)
    (hInv : Inv s) : Inv (processSelection f s sel).1 := by
  cases hp : s.pending_followup with
  | none => simpa [processSelection, hp] using hInv
  | some category =>
    have h : processSelection f s sel = selectWithCategory f s category sel := by
      rw [processSelection, hp]
    rw [h]
    exact inv_selectWithCategory f s category sel hp hInv

theorem inv_processSkip (s : SessionState) : Inv (processSkip s).1 := inv_reset

theorem inv_handleNewQuery (f : Str → List Candidate) (s : SessionState) (prompt : Str)
    (hInv : Inv s) : Inv (handleNewQuery f s prompt).1 := by
  obtain ⟨hB, hC, hD⟩ := hInv
  rw [handleNewQuery]
  split_ifs with h1 h2
  · exact ⟨hB, hC, hD⟩
  · exact ⟨fun _ => ⟨Nat.le_refl 1, by norm_num⟩, fun _ => rfl, hD⟩
  · exact ⟨hB, hC, hD⟩

theorem inv_reachable (f : Str → List Candidate) (s : SessionState)
    (h : Reachable f s) : Inv s := by
  induction h with
  | init => exact inv_reset
  | newQuery s prompt _ _ ih => exact inv_handleNewQuery f s prompt ih
  | select s sel _ _ ih => exact inv_processSelection f s sel ih
  | skip s _ _ _ => exact inv_processSkip s
  | reset s _ _ => exact inv_reset

theorem selectWithCategory_count (f : Str → List Candidate) (s : SessionState)
    (category sel : Str)
    (h : (selectWithCategory f s category sel).1.pending_followup ≠ Option.none) :
    (selectWithCategory f s category sel).1.followup_count = s.followup_count + 1 := by
  simp only [selectWithCategory] at h ⊢
  split_ifs at h ⊢ <;> first | rfl | exact absurd rfl h

theorem run_idle (f : Str → List Candidate) :
    ∀ (sels : List Str) (s : SessionState), s.pending_followup = Option.none →
      (runSelections f s sels).pending_followup = Option.none := by
  intro sels
  induction sels with
  | nil => intro s h; exact h
  | cons sel rest ih =>
    intro s h
    rw [runSelections, if_pos h]
    exact ih s h

theorem run_terminates (f : Str → List Candidate) :
    ∀ (sels : List Str) (s : SessionState), Inv s →
      MAX_FOLLOWUPS ≤ s.followup_count + sels.length →
      (runSelections f s sels).pending_followup = Option.none := by
  intro sels
  induction sels with
  | nil =>
    intro s hInv hcnt
    rw [runSelections]
    cases hpend : s.pending_followup with
    | none => rfl
    | some c =>
      exfalso
      have := (hInv.1 (by rw [hpend]; exact Option.noConfusion)).2
      rw [MAX_FOLLOWUPS] at hcnt
      simp only [List.length_nil, Nat.add_zero] at hcnt
      omega
  | cons sel rest ih =>
    intro s hInv hcnt
    rw [runSelections]
    by_cases hpend : s.pending_followup = Option.none
    · rw [if_pos hpend]
      exact run_idle f rest s hpend
    · rw [if_neg hpend]
      by_cases hpend2 : (processSelection f s sel).1.pending_followup = Option.none
      · exact run_idle f rest _ hpend2
      · have hcount : (processSelection f s sel).1.followup_count = s.followup_count + 1 := by
          cases hp : s.pending_followup with
          | none => exact absurd hp hpend
          | some category =>
            have heq : processSelection f s sel = selectWithCategory f s category sel := by
              rw [processSelection, hp]
            rw [heq] at hpend2 ⊢
            exact selectWithCategory_count f s category sel hpend2
        refine ih _ (inv_processSelection f s sel hInv) ?_
        rw [hcount]
        simp only [List.length_cons] at hcnt
        omega

theorem postLoop_eq_filter (threshold : ℚ) (l : List Candidate) :
    postLoop threshold l = l.filter (postPred threshold) := by
  induction l with
  | nil => rfl
  | cons c t ih =>
    cases hd : c.distance with
    | none =>
      simp [postLoop, hd, List.filter_cons, postPred, ih]
    | some d =>
      by_cases hle : d ≤ threshold
      · simp [postLoop, hd, if_pos hle, List.filter_cons, postPred, hle, ih]
      · simp [postLoop, hd, if_neg hle, List.filter_cons, postPred, hle, ih]

theorem postFilterStage_eq (threshold : ℚ) (k : ℕ) (l : List Candidate) :
    postFilterStage threshold k l = (l.take k).filter (postPred threshold) := by
  rw [postFilterStage, postLoop_eq_filter]

theorem postFilterStage_length (threshold : ℚ) (k : ℕ) (l : List Candidate) :
    (postFilterStage threshold k l).length ≤ k := by
  rw [postFilterStage_eq]
  refine le_trans (List.length_filter_le _ _) ?_
  rw [List.length_take]
  exact min_le_left _ _

theorem postFilterStage_bound (threshold : ℚ) (k : ℕ) (l : List Candidate) :
    ∀ c ∈ postFilterStage threshold k l, ∀ d, c.distance = some d → d ≤ threshold := by
  intro c hc d hd
  rw [postFilterStage_eq] at hc
  have hp := (List.mem_filter.1 hc).2
  rw [postPred, hd] at hp
  exact of_decide_eq_true hp

theorem postFilterStage_keeps_distanceless (threshold : ℚ) (k : ℕ) (l : List Candidate) :
    ∀ c ∈ l.take k, c.distance = Option.none → c ∈ postFilterStage threshold k l := by
  intro c hc hd
  rw [postFilterStage_eq]
  exact List.mem_filter.2 ⟨hc, by rw [postPred, hd]⟩

theorem postFilterStage_sublist (threshold : ℚ) (k : ℕ) (l : List Candidate) :
    (postFilterStage threshold k l).Sublist (l.take k) := by
  rw [postFilterStage_eq]
  exact List.filter_sublist _

theorem mkCandidates_keeps (docs : List Str) (metas : Option (List (List (Str × Str))))
    (dists : Option (List ℚ)) (pre : ℚ) (i : ℕ) (doc : Str)
    (hdoc : docs[i]? = some doc)
    (hkeep : ∀ d, getDist dists i = some d → d ≤ pre) :
    ({ content := doc, metadata := getMeta metas i, distance := getDist dists i,
       similarity_pct := pySimilarity (getDist dists i),
       cross_encoder_score := Option.none } : Candidate) ∈
      mkCandidates docs metas dists pre := by
  rw [mkCandidates]
  refine List.mem_filterMap.2 ⟨(i, doc), List.mk_mem_enum_iff_getElem?.2 hdoc, ?_⟩
  cases hd : getDist dists i with
  | none => simp [hd]
  | some d =>
    have hnlt : ¬ pre < d := not_lt.2 (hkeep d hd)
    simp [hd, hnlt]

theorem mkCandidates_bound (docs : List Str) (metas : Option (List (List (Str × Str))))
    (dists : Option (List ℚ)) (pre : ℚ) :
    ∀ c ∈ mkCandidates docs metas dists pre, ∀ d, c.distance = some d → d ≤ pre := by
  intro c hc d hd
  rw [mkCandidates] at hc
  rcases List.mem_filterMap.1 hc with ⟨p, _, hfp⟩
  cases hg : getDist dists p.1 with
  | none =>
    simp only [hg] at hfp
    rw [if_neg (by simp)] at hfp
    injection hfp with hfp
    rw [← hfp] at hd
    simp at hd
  | some d2 =>
    by_cases hlt : pre < d2
    · simp [hg, hlt] at hfp
    · simp only [hg] at hfp
      rw [if_neg (by simpa using hlt)] at hfp
      injection hfp with hfp
      rw [← hfp] at hd
      simp only [Option.some.injEq] at hd
      rw [← hd]
      exact not_lt.1 hlt

theorem sortByCE_perm (l : List Candidate) : (sortByCE l).Perm l := by
  have h1 : (l.enum.insertionSort ceRel).Perm l.enum := List.perm_insertionSort _ _
  have h2 := h1.map Prod.snd
  rw [List.enum_map_snd] at h2
  exact h2

theorem sortByCE_sorted (l : List Candidate) :
    List.Sorted ceRel (l.enum.insertionSort ceRel) :=
  List.sorted_insertionSort _ _

theorem annotateScores_scored {cands : List Candidate} {scores : List ℚ}
    (h : cands.length ≤ scores.length) :
    ∀ c ∈ annotateScores cands scores, c.cross_encoder_score ≠ Option.none := by
  intro c hc
  rw [annotateScores] at hc
  rcases List.mem_map.1 hc with ⟨p, hp, hfp⟩
  have h2 : cands[p.1]? = some p.2 := List.mem_enum_iff_getElem?.1 hp
  have hi : p.1 < cands.length := by
    by_contra hge
    rw [List.getElem?_eq_none (le_of_not_lt hge)] at h2
    simp at h2
  have hs : p.1 < scores.length := lt_of_lt_of_le hi h
  have hv : scores[p.1]? = some scores[p.1] := List.getElem?_eq_getElem hs
  rw [hv] at hfp
  rw [← hfp]
  simp

theorem rerankStage_ok (query : Str) (enc : Encoder) (cands : List Candidate)
    (scores : List ℚ) (hlen : 1 < cands.length)
    (henc : enc (cands.map (fun c => (query, c.content))) = Except.ok scores)
    (hsl : cands.length ≤ scores.length) :
    rerankStage query (some enc) cands = sortByCE (annotateScores cands scores) := by
  simp only [rerankStage, if_pos hlen, henc, if_pos hsl]

/-- C6: with no cross-encoder loaded, or when the cross-encoder `predict`
call raises, the rerank stage is a pass-through: the candidate sequence
comes out exactly as it went in (its pre-rerank, distance-ascending order),
and — the `try`/`except` being modelled by the `Except` match — no failure
escapes the stage.  With reranking disabled the search ignores the encoder
entirely. -/
theorem reranker_degrades_to_noop (query : Str) (cands : List Candidate) :
    rerankStage query Option.none cands = cands ∧
    (∀ (enc : Encoder) (e : Unit),
      enc (cands.map (fun c => (query, c.content))) = Except.error e →
      rerankStage query (some enc) cands = cands) ∧
    (∀ docs metas dists (enc : Encoder) (cfg : SearchConfig),
      search_knowledge_base query docs metas dists (some enc) false cfg =
        search_knowledge_base query docs metas dists Option.none false cfg) := by
  refine ⟨rfl, ?_, fun docs metas dists enc cfg => rfl⟩
  intro enc e henc
  by_cases hlen : 1 < cands.length
  · simp only [rerankStage, if_pos hlen, henc]
  · simp only [rerankStage, if_neg hlen]

/-- C6 witness: a raising encoder on two concrete candidates is a no-op. -/
theorem reranker_degrades_to_noop_witness :
    failEncoder ([sampleCandidate, distancelessCandidate].map
      (fun c => (str "q", c.content))) = Except.error () ∧
    rerankStage (str "q") (some failEncoder) [sampleCandidate, distancelessCandidate]
      = [sampleCandidate, distancelessCandidate] :=
  ⟨rfl, (reranker_degrades_to_noop (str "q")
    [sampleCandidate, distancelessCandidate]).2.1 failEncoder () rfl⟩

/-- C7: when a cross-encoder is available, at least two candidates survived
pre-filtering and `predict` delivers a score per candidate, the stage equals
the stable descending sort of the score-annotated candidates: the result is
a permutation of the annotated input, every element carries a score, and the
index-annotated sort is `Sorted` for `ceRel` (strictly larger score first,
ties broken by original position).  With fewer than two candidates the stage
is skipped. -/
theorem reranker_sorts_descending_stable (query : Str) (enc : Encoder)
    (cands : List Candidate) (scores : List ℚ)
    (hlen : 1 < cands.length)
    (henc : enc (cands.map (fun c => (query, c.content))) = Except.ok scores)
    (hsl : cands.length ≤ scores.length) :
    rerankStage query (some enc) cands = sortByCE (annotateScores cands scores) ∧
    (rerankStage query (some enc) cands).Perm (annotateScores cands scores) ∧
    (∀ c ∈ rerankStage query (some enc) cands,
      c.cross_encoder_score ≠ Option.none) ∧
    List.Sorted ceRel ((annotateScores cands scores).enum.insertionSort ceRel) ∧
    (∀ cands2 : List Candidate, cands2.length < 2 →
      rerankStage query (some enc) cands2 = cands2) := by
  have heq := rerankStage_ok query enc cands scores hlen henc hsl
  refine ⟨heq, ?_, ?_, sortByCE_sorted _, ?_⟩
  · rw [heq]
    exact sortByCE_perm _
  · intro c hc
    rw [heq] at hc
    exact annotateScores_scored hsl c ((sortByCE_perm _).mem_iff.1 hc)
  · intro cands2 h2
    simp only [rerankStage, if_neg (by omega : ¬ 1 < cands2.length)]

/-- C7 witness: a working encoder over two concrete candidates. -/
theorem reranker_sorts_descending_stable_witness :
    1 < ([sampleCandidate, distancelessCandidate] : List Candidate).length ∧
    okEncoder ([sampleCandidate, distancelessCandidate].map
      (fun c => (str "q", c.content))) = Except.ok [1, 2] ∧
    ([sampleCandidate, distancelessCandidate] : List Candidate).length ≤
      ([1, 2] : List ℚ).length ∧
    rerankStage (str "q") (some okEncoder) [sampleCandidate, distancelessCandidate]
      = sortByCE (annotateScores [sampleCandidate, distancelessCandidate] [1, 2]) :=
  ⟨by decide, rfl, by decide,
    (reranker_sorts_descending_stable (str "q") okEncoder
      [sampleCandidate, distancelessCandidate] [1, 2]
      (by decide) rfl (by decide)).1⟩

/-- C8 witness: on the query `"printer not printing"` the detector returns a
non-default category realising the first-defined maximal positive score. -/
theorem detect_category_keyword_scoring_witness :
    detect_category (str "printer not printing") ≠ str "default" ∧
    (∃ pre kws post,
      CATEGORY_KEYWORDS = pre ++ (detect_category (str "printer not printing"), kws) :: post ∧
      0 < categoryScore kws (lowerStr (str "printer not printing")) ∧
      (∀ p ∈ pre, categoryScore p.2 (lowerStr (str "printer not printing")) <
        categoryScore kws (lowerStr (str "printer not printing"))) ∧
      (∀ p ∈ CATEGORY_KEYWORDS,
        categoryScore p.2 (lowerStr (str "printer not printing")) ≤
          categoryScore kws (lowerStr (str "printer not printing")))) := by
  have hne : detect_category (str "printer not printing") ≠ str "default" := by decide
  exact ⟨hne, (detect_category_keyword_scoring (str "printer not printing")).2 hne⟩

/-- C9: for every distance in [0,1] the classifier yields the percentage
`round((1 - d) * 100, 1)` and exactly one label, chosen by the first
matching bound (below 0.20 Excellent, below 0.35 Good, below 0.50 Fair,
else Weak); an absent distance gives the label Medium with no percentage. -/
theorem get_relevance_class_first_match (d : ℚ) (h0 : 0 ≤ d) (h1 : d ≤ 1) :
    (get_relevance_class (some d)).2.2 = some (pyRound1 ((1 - d) * 100)) ∧
    ((d < 0.20 ∧ (get_relevance_class (some d)).2.1 = str "Excellent") ∨
     (0.20 ≤ d ∧ d < 0.35 ∧ (get_relevance_class (some d)).2.1 = str "Good") ∨
     (0.35 ≤ d ∧ d < 0.50 ∧ (get_relevance_class (some d)).2.1 = str "Fair") ∨
     (0.50 ≤ d ∧ (get_relevance_class (some d)).2.1 = str "Weak")) ∧
    get_relevance_class Option.none = (str "medium", str "Medium", Option.none) := by
  refine ⟨?_, ?_, rfl⟩
  · rw [get_relevance_class]
    split_ifs <;> rfl
  · rw [get_relevance_class]
    split_ifs with ha hb hc
    · exact Or.inl ⟨ha, rfl⟩
    · exact Or.inr (Or.inl ⟨not_lt.1 ha, hb, rfl⟩)
    · exact Or.inr (Or.inr (Or.inl ⟨not_lt.1 hb, hc, rfl⟩))
    · exact Or.inr (Or.inr (Or.inr ⟨not_lt.1 hc, rfl⟩))

/-- C9 witness: distance 0.25 is classified Good. -/
theorem get_relevance_class_first_match_witness :
    (get_relevance_class (some (0.25 : ℚ))).2.1 = str "Good" := by
  rcases (get_relevance_class_first_match 0.25 (by norm_num) (by norm_num)).2.1 with
    ⟨h, _⟩ | ⟨_, _, h⟩ | ⟨h, _, _⟩ | ⟨h, _⟩
  · norm_num at h
  · exact h
  · norm_num at h
  · norm_num at h

/-- C10: the follow-up trigger test is a total function that returns `false`
on an empty match list and on a match list whose top candidate has no
distance, so a clarification dialog is never entered in those cases. -/
theorem should_trigger_followup_safe :
    should_trigger_followup [] = false ∧
    (∀ (c : Candidate) (rest : List Candidate), c.distance = Option.none →
      should_trigger_followup (c :: rest) = false) := by
  refine ⟨rfl, ?_⟩
  intro c rest h
  simp only [should_trigger_followup, h]

/-- C10 witness: a concrete distance-less top candidate. -/
theorem should_trigger_followup_safe_witness :
    distancelessCandidate.distance = Option.none ∧
    should_trigger_followup [distancelessCandidate] = false :=
  ⟨rfl, should_trigger_followup_safe.2 distancelessCandidate [] rfl⟩

theorem preRerank_forty : preRerankThreshold 0.40 = 1 / 2 := by
  rw [preRerankThreshold, min_def]
  norm_num

/-- C4: the final Confidence Filter returns the order-preserving filtered
prefix of the first `return_k` candidates: at most `return_k` results, every
present distance within the threshold, distance-less candidates always kept,
and no candidate beyond position `return_k` ever included; the full search
output obeys the same length and distance bounds. -/
theorem confidence_filter_spec (threshold : ℚ) (k : ℕ) (cands : List Candidate) :
    postFilterStage threshold k cands = (cands.take k).filter (postPred threshold) ∧
    (postFilterStage threshold k cands).length ≤ k ∧
    (∀ c ∈ postFilterStage threshold k cands, ∀ d, c.distance = some d → d ≤ threshold) ∧
    (∀ c ∈ cands.take k, c.distance = Option.none →
      c ∈ postFilterStage threshold k cands) ∧
    (postFilterStage threshold k cands).Sublist (cands.take k) ∧
    (∀ query docs metas dists enc ur (cfg : SearchConfig),
      (search_knowledge_base query docs metas dists enc ur cfg).length ≤ cfg.return_k ∧
      ∀ c ∈ search_knowledge_base query docs metas dists enc ur cfg,
        ∀ d, c.distance = some d → d ≤ cfg.distance_threshold) := by
  refine ⟨postFilterStage_eq _ _ _, postFilterStage_length _ _ _,
    postFilterStage_bound _ _ _, postFilterStage_keeps_distanceless _ _ _,
    postFilterStage_sublist _ _ _, ?_⟩
  intro query docs metas dists enc ur cfg
  simp only [search_knowledge_base]
  split_ifs with h1 h2 h3
  · exact ⟨by simp, by simp⟩
  · exact ⟨by simp, by simp⟩
  · exact ⟨postFilterStage_length _ _ _, postFilterStage_bound _ _ _⟩
  · exact ⟨postFilterStage_length _ _ _, postFilterStage_bound _ _ _⟩

/-- C4 witness: a distance-less candidate within the prefix is kept. -/
theorem confidence_filter_spec_witness :
    distancelessCandidate ∈ ([distancelessCandidate] : List Candidate).take 3 ∧
    distancelessCandidate.distance = Option.none ∧
    distancelessCandidate ∈ postFilterStage 0.40 3 [distancelessCandidate] := by
  refine ⟨by simp, rfl, ?_⟩
  exact (confidence_filter_spec 0.40 3 [distancelessCandidate]).2.2.2.1
    distancelessCandidate (by simp) rfl

/-- C5: the pre-filter keeps exactly the candidates whose distance is absent
or at most `min(distance_threshold + 0.10, 0.60)`; if it keeps none the
search returns `[]` before reranking.  With `distance_threshold = 0.40` the
relaxed bound is `0.50`, so a candidate at distance 0.52 is dropped before
reranking, while one at 0.48 survives pre-filtering yet is dropped by the
post-filter. -/
theorem pre_filter_relaxed_bound :
    (∀ docs metas dists pre (i : ℕ) (doc : Str), docs[i]? = some doc →
      (∀ d, getDist dists i = some d → d ≤ pre) →
      ({ content := doc, metadata := getMeta metas i, distance := getDist dists i,
         similarity_pct := pySimilarity (getDist dists i),
         cross_encoder_score := Option.none } : Candidate) ∈
        mkCandidates docs metas dists pre) ∧
    (∀ docs metas dists pre, ∀ c ∈ mkCandidates docs metas dists pre,
      ∀ d, c.distance = some d → d ≤ pre) ∧
    (∀ query docs metas dists enc ur (cfg : SearchConfig),
      mkCandidates docs metas dists (preRerankThreshold cfg.distance_threshold) = [] →
      search_knowledge_base query docs metas dists enc ur cfg = []) ∧
    preRerankThreshold 0.40 = 1 / 2 ∧
    (∀ c ∈ mkCandidates [str "a", str "b"] Option.none (some [0.52, 0.48])
        (preRerankThreshold 0.40), c.distance ≠ some 0.52) ∧
    ({ content := str "b", metadata := getMeta Option.none 1,
       distance := getDist (some [0.52, 0.48]) 1,
       similarity_pct := pySimilarity (getDist (some [0.52, 0.48]) 1),
       cross_encoder_score := Option.none } : Candidate) ∈
      mkCandidates [str "a", str "b"] Option.none (some [0.52, 0.48])
        (preRerankThreshold 0.40) ∧
    (∀ l : List Candidate, ∀ c ∈ postFilterStage 0.40 3 l,
      c.distance ≠ some 0.48) := by
  refine ⟨mkCandidates_keeps, mkCandidates_bound, ?_, preRerank_forty, ?_, ?_, ?_⟩
  · intro query docs metas dists enc ur cfg hempty
    simp only [search_knowledge_base]
    split_ifs with h1
    · rfl
    · rfl
  · intro c hc hd
    have := mkCandidates_bound _ _ _ _ c hc 0.52 hd
    rw [preRerank_forty] at this
    norm_num at this
  · refine mkCandidates_keeps _ _ _ _ 1 _ rfl ?_
    intro d hd
    have hd2 : some (0.48 : ℚ) = some d := hd
    injection hd2 with hd2
    rw [preRerank_forty, ← hd2]
    norm_num
  · intro l c hc hd
    have := postFilterStage_bound _ _ _ c hc 0.48 hd
    norm_num at this

/-- C5 witness: the surviving 0.48 candidate, built by the keep direction. -/
theorem pre_filter_relaxed_bound_witness :
    (([str "a", str "b"] : List Str)[1]? = some (str "b")) ∧
    ({ content := str "b", metadata := getMeta Option.none 1,
       distance := getDist (some [0.52, 0.48]) 1,
       similarity_pct := pySimilarity (getDist (some [0.52, 0.48]) 1),
       cross_encoder_score := Option.none } : Candidate) ∈
      mkCandidates [str "a", str "b"] Option.none (some [0.52, 0.48])
        (preRerankThreshold 0.40) := by
  refine ⟨rfl, ?_⟩
  refine pre_filter_relaxed_bound.1 _ _ _ _ 1 _ rfl ?_
  intro d hd
  have hd2 : some (0.48 : ℚ) = some d := hd
  injection hd2 with hd2
  rw [preRerank_forty, ← hd2]
  norm_num

/-- C3: in every reachable session an active follow-up has consumed between
1 and `MAX_FOLLOWUPS - 1` turns (so the machine never sits in `Asking` with
the budget reached, the category-redirect path included), and any three
further non-skip selections drive it to `Idle` — i.e. the dialog ends within
`MAX_FOLLOWUPS` (4) rounds with the trigger counted as round 1. -/
theorem followup_terminates_within_budget (f : Str → List Candidate)
    (s : SessionState) (h : Reachable f s) :
    (s.pending_followup ≠ Option.none →
      1 ≤ s.followup_count ∧ s.followup_count < MAX_FOLLOWUPS) ∧
    (∀ sels : List Str, 3 ≤ sels.length →
      (runSelections f s sels).pending_followup = Option.none) := by
  have hInv := inv_reachable f s h
  constructor
  · intro hp
    rcases hInv.1 hp with ⟨ha, hb⟩
    rw [MAX_FOLLOWUPS]
    omega
  · intro sels hlen
    by_cases hp : s.pending_followup = Option.none
    · exact run_idle f sels s hp
    · rcases hInv.1 hp with ⟨ha, _⟩
      refine run_terminates f sels s hInv ?_
      rw [MAX_FOLLOWUPS]
      omega

theorem should_trigger_sample : should_trigger_followup [sampleCandidate] = true := by
  simp only [should_trigger_followup, sampleCandidate]
  rw [decide_eq_true_eq, FOLLOWUP_THRESHOLD]
  norm_num

theorem demoTriggered_char : demoTriggered =
    { followup_active := true, original_query := str "help", followup_count := 1,
      enriched_context := [], pending_followup := some (detect_category (str "help")),
      cached_matches := [sampleCandidate] } := by
  rw [demoTriggered]
  simp only [handleNewQuery, demoSearch]
  rw [if_neg (by simp : ¬ ([sampleCandidate] : List Candidate) = [])]
  rw [if_pos ⟨should_trigger_sample, by decide⟩]
  rfl

/-- C3 witness: a concretely triggered session is mid-budget and three
selections later the machine is idle. -/
theorem followup_terminates_within_budget_witness :
    demoTriggered.pending_followup ≠ Option.none ∧
    1 ≤ demoTriggered.followup_count ∧
    demoTriggered.followup_count < MAX_FOLLOWUPS ∧
    (runSelections demoSearch demoTriggered
      [str "x", str "y", str "z"]).pending_followup = Option.none := by
  have hreach : Reachable demoSearch demoTriggered :=
    Reachable.newQuery reset_followup_state (str "help") Reachable.init rfl
  have h := followup_terminates_within_budget demoSearch demoTriggered hreach
  have hne : demoTriggered.pending_followup ≠ Option.none := by
    rw [demoTriggered_char]
    simp
  exact ⟨hne, (h.1 hne).1, (h.1 hne).2, h.2 _ (by decide)⟩

/-- C1: in the empty-enrichment branch (`"Something else"`) the session is
reset and the cached matches are emitted — but the source resets the state
*before* reading `st.session_state.original_query` (line 930), so answer
generation receives the empty string instead of the recorded original query;
the sibling skip branch (line 946) saves the query first.  Evaluated here at
a concrete pending-default session. -/
theorem empty_enrichment_emits_reset_query :
    (processSelection (fun _ => []) bugSession (str "Something else")).1
      = reset_followup_state ∧
    (processSelection (fun _ => []) bugSession (str "Something else")).2
      = Emission.results (str "") [sampleCandidate] ∧
    bugSession.original_query = str "cashier cannot void" ∧
    str "cashier cannot void" ≠ str "" := by
  exact ⟨rfl, rfl, rfl, by decide⟩

/-- C2: the similarity annotation uses Python truthiness
(`... if distance else None`, line 539), so a candidate at distance exactly
0 is emitted with a present distance but *no* `similarity_pct`, although the
claimed formula gives `round((1 - 0) * 100, 1) = 100.0`; every other part of
the code treats distance 0 as a valid present distance. -/
theorem zero_distance_loses_similarity :
    pySimilarity (some 0) = Option.none ∧
    pySimilarity Option.none = Option.none ∧
    pyRound1 ((1 - 0) * 100) = 100 ∧
    getDist (some [0]) 0 = some 0 ∧
    ({ content := str "doc", metadata := getMeta Option.none 0,
       distance := some (0 : ℚ), similarity_pct := Option.none,
       cross_encoder_score := Option.none } : Candidate) ∈
      mkCandidates [str "doc"] Option.none (some [0])
        (preRerankThreshold 0.40) := by
  have h1 : pySimilarity (some (0 : ℚ)) = Option.none := by
    simp [pySimilarity]
  have h4 : getDist (some [(0 : ℚ)]) 0 = some 0 := rfl
  refine ⟨h1, rfl, ?_, h4, ?_⟩
  · have h2 : ((1 : ℚ) - 0) * 100 * 10 = 1000 := by norm_num
    rw [pyRound1, h2]
    have h3 : roundHalfEven 1000 = 1000 := by
      simp only [roundHalfEven]
      norm_num
    rw [h3]
    norm_num
  · have hmem := mkCandidates_keeps [str "doc"] Option.none (some [0])
      (preRerankThreshold 0.40) 0 (str "doc") rfl ?_
    · rw [h4, h1] at hmem
      exact hmem
    · intro d hd
      have hd2 : some (0 : ℚ) = some d := hd
      injection hd2 with hd2
      rw [preRerank_forty, ← hd2]
      norm_num

end EscalationHelper
